import Mathlib

/-!
# Verification of `pdf_converter.py`

Shallow embedding of the core logic of `src/pdf_converter.py`:
`convert_value`, `replacement_function`, `group_numeric_spans`, and the
per-page replacement collection and substitution (redact / reinsert)
phases of `process_pdf`.

Modelling conventions:
* Python strings are modelled as `List Char`.  String literals are written
  as `"...".data`.
* Python `float` values are modelled exactly: a parsed finite value is kept
  as a sign bit together with a non-negative rational magnitude (the sign
  bit makes `-0.0` representable, matching `float("-0")`).  The source's
  IEEE-754 double rounding (both of the parsed literal and of the division
  by `25.4`) is not modelled; arithmetic is exact (see `Q`).  Every concrete
  value appearing in the theorems below is far enough from a rounding
  boundary that exact and double arithmetic print identically.  Overflow of
  huge decimal literals to `inf` is likewise outside the model.
* `re`'s `\d` and Python's case/whitespace operations are modelled over
  ASCII; the Unicode extensions of those classes are outside the model
  (every token the program itself builds from grouped spans is drawn from
  `[0-9.+-]`, see the `C10` invariant).
* Logging, file I/O and the PyMuPDF calls are external effects; the
  substitution phase is modelled as the trace of page operations it emits.
-/

namespace PdfConverter

/-! ## Exact rational numbers

All numeric quantities of the program (coordinates, sizes, parsed values)
are modelled by `Q`, an exact unnormalised rational: an integer numerator
over a positive integer denominator.  Every construction in this file keeps
the denominator positive, and comparisons are by cross-multiplication,
which is sound for positive denominators.  (A self-contained type is used
so that every definition evaluates by kernel reduction on concrete
inputs.) -/

structure Q where
  num : Int
  den : Int
deriving DecidableEq

instance (n : Nat) : OfNat Q n := ⟨⟨(n : Int), 1⟩⟩

/-- `a - b` by cross-multiplication. -/
def Q.sub (a b : Q) : Q := ⟨a.num * b.den - b.num * a.den, a.den * b.den⟩

instance : Sub Q := ⟨Q.sub⟩

/-- `a * b`. -/
def Q.mul (a b : Q) : Q := ⟨a.num * b.num, a.den * b.den⟩

instance : Mul Q := ⟨Q.mul⟩

/-- `a / b` (used only with divisors of positive numerator). -/
def Q.div (a b : Q) : Q := ⟨a.num * b.den, a.den * b.num⟩

instance : Div Q := ⟨Q.div⟩

instance : LT Q := ⟨fun a b => a.num * b.den < b.num * a.den⟩

instance : LE Q := ⟨fun a b => a.num * b.den ≤ b.num * a.den⟩

instance (a b : Q) : Decidable (a < b) :=
  inferInstanceAs (Decidable (a.num * b.den < b.num * a.den))

instance (a b : Q) : Decidable (a ≤ b) :=
  inferInstanceAs (Decidable (a.num * b.den ≤ b.num * a.den))

/-- Python's `max(a, b)`: returns `b` exactly when `b` is strictly larger. -/
def Q.max (a b : Q) : Q := if a < b then b else a

instance : Max Q := ⟨Q.max⟩

/-- `⌊q⌋` (sound for positive denominators). -/
def Q.floor (q : Q) : Int := q.num.fdiv q.den

/-- `10 ^ k` as a `Q`. -/
def Q.pow10 (k : Nat) : Q := ⟨((10 ^ k : Nat) : Int), 1⟩

/-! ## Python string primitives -/

/-- ASCII whitespace stripped by `str.strip()` (and by `float()`):
space, tab, newline, carriage return, vertical tab, form feed. -/
def isPySpace (c : Char) : Bool :=
  c == ' ' || c == '\t' || c == '\n' || c == '\r' || c == Char.ofNat 11 || c == Char.ofNat 12

/-- `str.strip()` on a list of characters. -/
def pyStrip (l : List Char) : List Char :=
  (((l.dropWhile isPySpace).reverse.dropWhile isPySpace)).reverse

/-- `str.lower()` (ASCII). -/
def pyLower (l : List Char) : List Char := l.map Char.toLower

/-- `s.split(c)` for a single-character separator, as (first part, remaining
parts).  `s.split(c)` is the list `(splitOnCharAux c s).1 :: (splitOnCharAux c s).2`. -/
def splitOnCharAux (c : Char) : List Char → List Char × List (List Char)
  | [] => ([], [])
  | x :: xs =>
    let r := splitOnCharAux c xs
    if x == c then ([], r.1 :: r.2) else (x :: r.1, r.2)

/-- `c.join(parts)` for a single-character separator. -/
def intercalateChar (c : Char) : List (List Char) → List Char
  | [] => []
  | [x] => x
  | x :: y :: ys => x ++ c :: intercalateChar c (y :: ys)

/-- Decimal digit character for `n < 10`. -/
def digitChar (n : Nat) : Char := Char.ofNat ('0'.toNat + n)

/-- Decimal digit characters of a natural number, most significant first
(fuelled; the fuel `n + 1` always suffices). -/
def natToDigitsAux : Nat → Nat → List Char
  | 0, _ => []
  | fuel + 1, n => if n < 10 then [digitChar n] else natToDigitsAux fuel (n / 10) ++ [digitChar (n % 10)]

/-- Decimal digit characters of a natural number, most significant first. -/
def natToDigits (n : Nat) : List Char := natToDigitsAux (n + 1) n

/-- Value of a list of decimal digit characters. -/
def digitsToNat (l : List Char) : Nat :=
  l.foldl (fun a c => 10 * a + (c.toNat - '0'.toNat)) 0

/-! ## Model of Python `float()` and of fixed-point formatting -/

/-- A Python float as far as this program observes it: a finite value is a
sign bit and a non-negative exact magnitude; `inf` and `nan` parse
successfully and print as themselves under `:.{p}f`. -/
inductive PyFloat where
  | fin (neg : Bool) (mag : Q)
  | inf (neg : Bool)
  | nan
deriving DecidableEq

/-- Take the maximal leading digit part, allowing single underscores strictly
between digits (CPython's numeric-literal rule for `float()`); returns the
digits (underscores removed) and the rest of the input. -/
def takeDP : List Char → List Char × List Char
  | [] => ([], [])
  | c :: '_' :: d :: rest2 =>
    if c.isDigit then
      if d.isDigit then
        let r := takeDP (d :: rest2)
        (c :: r.1, r.2)
      else (c :: [], '_' :: d :: rest2)
    else ([], c :: '_' :: d :: rest2)
  | c :: rest =>
    if c.isDigit then
      let r := takeDP rest
      (c :: r.1, r.2)
    else ([], c :: rest)

/-- Mantissa value of integer digits `ip` and fractional digits `fp`:
`(ip * 10^|fp| + fp) / 10^|fp|`. -/
def mantissa (ip fp : List Char) : Q :=
  ⟨((digitsToNat ip * 10 ^ fp.length + digitsToNat fp : Nat) : Int),
   ((10 ^ fp.length : Nat) : Int)⟩

/-- Parse the optional exponent tail `[e|E][+|-]digits` applied to `m`. -/
def parseExpPart (m : Q) (r : List Char) : Option Q :=
  let sr : Bool × List Char :=
    match r with
    | '+' :: t => (false, t)
    | '-' :: t => (true, t)
    | t => (false, t)
  let d := takeDP sr.2
  if d.1.isEmpty then none
  else if !d.2.isEmpty then none
  else
    let k := digitsToNat d.1
    some (if sr.1 then m / Q.pow10 k else m * Q.pow10 k)

/-- `digits [. digits] [exp]` / `. digits [exp]`, requiring at least one digit. -/
def parseAfterPoint (ip fp rest : List Char) : Option Q :=
  if ip.isEmpty && fp.isEmpty then none
  else
    match rest with
    | [] => some (mantissa ip fp)
    | 'e' :: r => parseExpPart (mantissa ip fp) r
    | 'E' :: r => parseExpPart (mantissa ip fp) r
    | _ => none

/-- Unsigned decimal literal accepted by `float()`. -/
def parseUDecimal (cs : List Char) : Option Q :=
  let a := takeDP cs
  match a.2 with
  | '.' :: r =>
    let b := takeDP r
    parseAfterPoint a.1 b.1 b.2
  | r => parseAfterPoint a.1 [] r

/-- Model of Python `float(s)`: optional surrounding whitespace, optional
sign, then a case-insensitive `inf`/`infinity`/`nan` or a decimal literal.
`none` models `ValueError`. -/
def pyFloatParse (s : List Char) : Option PyFloat :=
  let t := pyStrip s
  let sn : Bool × List Char :=
    match t with
    | '+' :: r => (false, r)
    | '-' :: r => (true, r)
    | r => (false, r)
  let low := pyLower sn.2
  if low = "inf".data || low = "infinity".data then some (PyFloat.inf sn.1)
  else if low = "nan".data then some PyFloat.nan
  else
    match parseUDecimal sn.2 with
    | some m => some (PyFloat.fin sn.1 m)
    | none => none

/-- Round to the nearest integer, ties to even (the rounding used when
formatting with `:.{p}f`).  With `f = ⌊q⌋` the fractional remainder is
`(q.num - f * q.den) / q.den`; it is compared with `1/2` by
cross-multiplication (sound for the positive denominators constructed
here). -/
def rne (q : Q) : Int :=
  let f := q.floor
  let twice := 2 * (q.num - f * q.den)
  if twice < q.den then f
  else if q.den < twice then f + 1
  else if f % 2 = 0 then f else f + 1

/-- Fixed-point rendering of a non-negative rational at `p` decimal places. -/
def formatNN (q : Q) (p : Nat) : List Char :=
  let n := (rne (q * Q.pow10 p)).toNat
  let ds := natToDigits n
  if p = 0 then ds
  else
    let s := if ds.length < p + 1 then List.replicate (p + 1 - ds.length) '0' ++ ds else ds
    s.take (s.length - p) ++ '.' :: s.drop (s.length - p)

/-- Model of Python's `f"{x:.{p}f}"`. -/
def formatFixed (v : PyFloat) (p : Nat) : List Char :=
  match v with
  | .nan => "nan".data
  | .inf neg => if neg then "-inf".data else "inf".data
  | .fin neg mag => (if neg then ['-'] else []) ++ formatNN mag p

/-- Division of a Python float by a positive rational constant. -/
def pyDiv : PyFloat → Q → PyFloat
  | .fin neg mag, f => .fin neg (mag / f)
  | .inf neg, _ => .inf neg
  | .nan, _ => .nan

/-! ## `convert_value` (src/pdf_converter.py lines 25-35) -/

/-- `convert_value(value_str, unit, precision)`: parse as `float`, returning
the input unchanged on `ValueError`; otherwise divide by 25.4 (`"mm"`) or
2.54 (anything else) and format at `precision` decimal places. -/
def convert_value (value_str : List Char) (unit : List Char) (precision : Nat) : List Char :=
  match pyFloatParse value_str with
  | none => value_str
  | some v =>
    let factor : Q := if pyLower unit = "mm".data then 254 / 10 else 254 / 100
    formatFixed (pyDiv v factor) precision

/-! ## `replacement_function` (src/pdf_converter.py lines 37-72) -/

/-- `re.search(r'\d[xX]\d', text)` (ASCII `\d`). -/
def gdtSearch : List Char → Bool
  | a :: b :: c :: rest =>
    (a.isDigit && (b == 'x' || b == 'X') && c.isDigit) || gdtSearch (b :: c :: rest)
  | _ => false

/-- Lines 46-56: split off the tolerance part.  `split('+')` having more than
one part means `'+' ∈ text`; the base is the part before the first separator
and the tolerance is the separator plus the rejoined remainder. -/
def splitTol (text : List Char) : List Char × List Char :=
  let sp := splitOnCharAux '+' text
  let sm := splitOnCharAux '-' text
  if sp.2 ≠ [] then (sp.1, '+' :: intercalateChar '+' sp.2)
  else if sm.2 ≠ [] then (sm.1, '-' :: intercalateChar '-' sm.2)
  else (text, [])

/-- Lines 58-63: precision is the length of `base.split('.')[1]` when the
split has more than one part, else 4. -/
def codePrec (base : List Char) : Nat :=
  let parts := splitOnCharAux '.' base
  match parts.2 with
  | p1 :: _ => p1.length
  | [] => 4

/-- `replacement_function`: skip on a degree symbol or a `\d[xX]\d` match,
else split base/tolerance, convert the base and append the tolerance
verbatim.  (The source's surrounding `try/except ValueError` is dead code:
`convert_value` already catches the only `ValueError`.) -/
def replacement_function (text : List Char) : List Char :=
  if '°' ∈ text then text
  else if gdtSearch text then text
  else
    let bt := splitTol text
    convert_value bt.1 ("mm".data) (codePrec bt.1) ++ bt.2

/-! ## `group_numeric_spans` (src/pdf_converter.py lines 74-114) -/

/-- A text span as extracted by PyMuPDF: `span.get("text", "")` is the
`text` field (a missing key is the empty list), `bbox` is `(x0, y0, x1, y1)`,
and `span.get("color", (0,0,0))` is modelled by an optional `color`. -/
structure Span where
  text : List Char
  x0 : Q
  y0 : Q
  x1 : Q
  y1 : Q
  font : List Char
  size : Q
  color : Option (Q × Q × Q)
deriving DecidableEq

/-- A group of merged numeric spans (the dicts in `groups`). -/
structure SpanGroup where
  text : List Char
  x0 : Q
  y0 : Q
  x1 : Q
  y1 : Q
  font : List Char
  size : Q
  color : Q × Q × Q
deriving DecidableEq

/-- Character class `[0-9.+-]`. -/
def isNumChar (c : Char) : Bool := c.isDigit || c == '.' || c == '+' || c == '-'

/-- `is_numeric_text(t)`: `bool(re.match(r'^[0-9\.\+\-]+$', t.strip()))`.
(The `$`-before-final-newline quirk of `re` cannot fire on stripped text.) -/
def is_numeric_text (t : List Char) : Bool :=
  let s := pyStrip t
  !s.isEmpty && s.all isNumChar

/-- Opening a new group from a span whose stripped text is `txt`
(lines 104-110). -/
def mkGroup (s : Span) (txt : List Char) : SpanGroup :=
  { text := txt, x0 := s.x0, y0 := s.y0, x1 := s.x1, y1 := s.y1,
    font := s.font, size := s.size, color := s.color.getD (0, 0, 0) }

/-- Merging span `s` (stripped text `txt`) into the open group (lines 99-102):
text appended, right edge *assigned* from the span, bottom edge maximised;
left/top and style untouched. -/
def mergeGroup (g : SpanGroup) (s : Span) (txt : List Char) : SpanGroup :=
  { g with text := g.text ++ txt, x1 := s.x1, y1 := max g.y1 s.y1 }

/-- The traversal state machine of `group_numeric_spans`: at most one open
group; a numeric span merges when the gap is under the threshold, otherwise
starts a fresh group; a non-numeric span closes the open group; a span that
is empty after stripping is skipped.  Finished groups are emitted in order
of first appearance (the Python list `groups` receives each dict when it is
created and sees later in-place mutations). -/
def groupGo (θ : Q) : List Span → Option SpanGroup → List SpanGroup
  | [], cur => cur.toList
  | s :: rest, cur =>
    let txt := pyStrip s.text
    if txt.isEmpty then groupGo θ rest cur
    else if is_numeric_text txt then
      match cur with
      | some g =>
        if s.x0 - g.x1 < θ then groupGo θ rest (some (mergeGroup g s txt))
        else g :: groupGo θ rest (some (mkGroup s txt))
      | none => groupGo θ rest (some (mkGroup s txt))
    else
      match cur with
      | some g => g :: groupGo θ rest none
      | none => groupGo θ rest none

/-- `group_numeric_spans(spans, gap_threshold)`; every call in the source
uses the default `gap_threshold = 3.0`. -/
def group_numeric_spans (spans : List Span) (gap_threshold : Q) : List SpanGroup :=
  groupGo gap_threshold spans none

/-! ## Per-page replacement collection (src/pdf_converter.py lines 127-145) -/

/-- One `\d*\.?\d+` chunk: non-empty, digits with at most one dot, ending in
a digit. -/
def numPatCore (cs : List Char) : Bool :=
  !cs.isEmpty && cs.all (fun c => c.isDigit || c == '.') &&
    decide ((cs.filter (fun c => c == '.')).length ≤ 1) &&
    (match cs.getLast? with
     | some c => c.isDigit
     | none => false)

/-- `number_pattern`: full-string match of
`^[+-]?\d*\.?\d+(?:[+-]\d*\.?\d+)?$` (`re.IGNORECASE` is vacuous; `\d` is
modelled as ASCII; group texts cannot contain a newline — see `C10` — so the
`$`-before-final-newline quirk cannot fire).  A leading sign is consumed if
present; the rest must be one core chunk, optionally split by exactly one
further sign into two core chunks. -/
def number_pattern (cs : List Char) : Bool :=
  let rest :=
    match cs with
    | c :: t => if c == '+' || c == '-' then t else cs
    | [] => []
  let before := rest.takeWhile (fun c => !(c == '+' || c == '-'))
  match rest.dropWhile (fun c => !(c == '+' || c == '-')) with
  | [] => numPatCore before
  | _ :: tail => numPatCore before && numPatCore tail

/-- A replacement record
`(group["bbox"], converted, group["font"], group["size"], group["color"])`. -/
structure RepRecord where
  x0 : Q
  y0 : Q
  x1 : Q
  y1 : Q
  text : List Char
  font : List Char
  size : Q
  color : Q × Q × Q
deriving DecidableEq

/-- The record appended for a group whose conversion changed its text. -/
def recordOf (g : SpanGroup) : RepRecord :=
  ⟨g.x0, g.y0, g.x1, g.y1, replacement_function g.text, g.font, g.size, g.color⟩

/-- Lines 138-145: a group contributes a record iff it matches
`number_pattern` and `replacement_function` changed its text. -/
def lineReplacements (groups : List SpanGroup) : List RepRecord :=
  groups.filterMap fun g =>
    if number_pattern g.text then
      if replacement_function g.text = g.text then none else some (recordOf g)
    else none

/-- Lines 129-145: the page is blocks of lines of spans (a block without a
`"lines"` key is an empty block); each line is grouped with the default
threshold 3.0 and scanned; records are collected in traversal order before
any mutation of the page. -/
def pageReplacements (blocks : List (List (List Span))) : List RepRecord :=
  ((blocks.map fun b =>
    (b.map fun line => lineReplacements (group_numeric_spans line 3)).flatten)).flatten

/-! ## Substitution phase (src/pdf_converter.py lines 146-171) -/

/-- Observable page mutations of the substitution phase, in order:
`add_redact_annot`, `apply_redactions`, and each `insert_textbox` attempt
(`ok = false` models the call raising). -/
inductive PageOp where
  | redact (x0 y0 x1 y1 : Q) (fill : Q × Q × Q)
  | commitRedactions
  | insertAttempt (x0 y0 x1 y1 : Q) (text fontname : List Char) (size : Q)
      (color : Q × Q × Q) (ok : Bool)
deriving DecidableEq

/-- Is the op an insertion attempt? -/
def PageOp.isInsert : PageOp → Bool
  | .insertAttempt .. => true
  | _ => false

/-- Is the op the redaction commit? -/
def PageOp.isCommit : PageOp → Bool
  | .commitRedactions => true
  | _ => false

/-- Lines 153-171: one record's insertion.  `fontOk` says whether
`insert_textbox` succeeds with a given font name.  On failure with the
original font the call is retried exactly once with `"helv"` at the same
rectangle, size and color; the pair's boolean is whether the record's
insertion completed without an uncaught exception. -/
def insertRecordOps (fontOk : List Char → Bool) (r : RepRecord) : List PageOp × Bool :=
  if fontOk r.font then
    ([PageOp.insertAttempt r.x0 r.y0 r.x1 r.y1 r.text r.font r.size r.color true], true)
  else
    ([PageOp.insertAttempt r.x0 r.y0 r.x1 r.y1 r.text r.font r.size r.color false,
      PageOp.insertAttempt r.x0 r.y0 r.x1 r.y1 r.text ("helv".data) r.size r.color
        (fontOk ("helv".data))],
     fontOk ("helv".data))

/-- The reinsert loop; a second (fallback) failure is not caught, so the
exception aborts the remaining records. -/
def reinsertOps (fontOk : List Char → Bool) : List RepRecord → List PageOp × Bool
  | [] => ([], true)
  | r :: rest =>
    let io := insertRecordOps fontOk r
    if io.2 then
      let t := reinsertOps fontOk rest
      (io.1 ++ t.1, t.2)
    else (io.1, false)

/-- Lines 146-171: if there are any records, mark every record's box for
redaction with white fill, commit all redactions in one call, then reinsert. -/
def applySubstitutions (fontOk : List Char → Bool) (reps : List RepRecord) : List PageOp :=
  if reps.isEmpty then []
  else
    (reps.map fun r => PageOp.redact r.x0 r.y0 r.x1 r.y1 (1, 1, 1)) ++
      PageOp.commitRedactions :: (reinsertOps fontOk reps).1

/-- One page end to end: scan/collect (pure), then the substitution trace. -/
def processPageOps (fontOk : List Char → Bool) (blocks : List (List (List Span))) :
    List PageOp :=
  applySubstitutions fontOk (pageReplacements blocks)

/-- Modelled from the spec: "count digits after the decimal point in the
base number string" — the number of digit characters after the first `'.'`.
Used only to compare the claimed precision rule with `codePrec`. -/
def specDigitsAfterDecimalPoint (base : List Char) : Nat :=
  ((base.dropWhile fun c => c ≠ '.').drop 1).countP fun c => c.isDigit

/-! ## Derived measures used to state the grouping theorems -/

/-- Concatenation of the stripped texts of a list of spans. -/
def joinTrims (spans : List Span) : List Char :=
  (spans.map fun s => pyStrip s.text).flatten

/-- Right edge of the last span of the list (`x` if the list is empty). -/
def runLastX1 (x : Q) : List Span → Q
  | [] => x
  | s :: rest => runLastX1 s.x1 rest

/-- Maximum of `y` and all the spans' bottom edges. -/
def runMaxY1 (y : Q) : List Span → Q
  | [] => y
  | s :: rest => runMaxY1 (max y s.y1) rest

/-- Every successive horizontal gap (first against `x`, then against the
previous span's right edge) is under `θ`. -/
def chainGapsB (θ : Q) : Q → List Span → Bool
  | _, [] => true
  | x, s :: rest => decide (s.x0 - x < θ) && chainGapsB θ s.x1 rest

/-- Every span's stripped text matches `is_numeric_text`. -/
def allNumericB (spans : List Span) : Bool :=
  spans.all fun s => is_numeric_text (pyStrip s.text)

/-! ## Concrete sample data used by witnesses and counterexamples -/

/-- A numeric span. -/
def spanN1 : Span := ⟨"1".data, 0, 0, 10, 10, "f1".data, 2, none⟩

/-- A numeric span overlapping `spanN1` whose box ends left of `spanN1`'s. -/
def spanN2 : Span := ⟨"2".data, 0, 0, 5, 5, "f2".data, 3, some (1, 0, 0)⟩

/-- A numeric span far to the right of `spanN1` (gap `≥ 3`). -/
def spanN3 : Span := ⟨"7".data, 14, 0, 20, 10, "f3".data, 2, none⟩

/-- A non-numeric span. -/
def spanTxt : Span := ⟨"abc".data, 11, 0, 13, 10, "f4".data, 2, none⟩

/-- A span whose grouped text `"1+2+3"` fails `number_pattern` although
`replacement_function` would change it. -/
def spanC3 : Span := ⟨"1+2+3".data, 0, 0, 10, 10, "f5".data, 2, none⟩

/-- A span whose grouped text `"10+0.5"` is converted. -/
def spanC7 : Span := ⟨"10+0.5".data, 0, 0, 10, 10, "helv".data, 2, none⟩

/-- A sample replacement record with a font that can fail. -/
def recArial : RepRecord := ⟨0, 0, 10, 10, "0.5".data, "arial".data, 3, (0, 0, 1)⟩

/-- A sample replacement record. -/
def recHelv : RepRecord := ⟨1, 2, 11, 12, "1.00".data, "helv".data, 4, (0, 0, 0)⟩

/-- Font availability: every font works. -/
def fontOkAll : List Char → Bool := fun _ => true

/-- Font availability: only `"helv"` works. -/
def fontOkHelvOnly : List Char → Bool := fun f => f == "helv".data

/-- Font availability: no font works. -/
def fontOkNone : List Char → Bool := fun _ => false

/-! ## Helper lemmas: stripping -/

theorem dropWhile_idem {α : Type} (p : α → Bool) (l : List α) :
    (l.dropWhile p).dropWhile p = l.dropWhile p := by
  induction l with
  | nil => rfl
  | cons x xs ih =>
    cases hx : p x with
    | true => simp [List.dropWhile_cons, hx, ih]
    | false => simp [List.dropWhile_cons, hx]

theorem head?_dropWhile_not {α : Type} (p : α → Bool) (l : List α) (c : α)
    (h : (l.dropWhile p).head? = some c) : p c = false := by
  induction l with
  | nil => simp [List.dropWhile] at h
  | cons x xs ih =>
    rw [List.dropWhile_cons] at h
    by_cases hx : p x = true
    · exact ih (by simpa [hx] using h)
    · simp [hx] at h
      have hpx : p x = false := by simpa [Bool.not_eq_true] using hx
      rwa [h] at hpx

theorem dropWhile_eq_self_of {α : Type} (p : α → Bool) (l : List α)
    (h : ∀ c, l.head? = some c → p c = false) : l.dropWhile p = l := by
  cases l with
  | nil => rfl
  | cons x xs => simp [List.dropWhile_cons, h x rfl]

theorem getLast?_dropWhile {α : Type} (p : α → Bool) (l : List α)
    (h : l.dropWhile p ≠ []) : (l.dropWhile p).getLast? = l.getLast? := by
  induction l with
  | nil => simp [List.dropWhile] at h
  | cons x xs ih =>
    rw [List.dropWhile_cons] at h ⊢
    by_cases hx : p x = true
    · simp only [hx, if_true] at h ⊢
      have hxs : xs ≠ [] := by
        intro hnil
        exact h (by simp [hnil, List.dropWhile])
      rw [ih h]
      cases xs with
      | nil => exact absurd rfl hxs
      | cons y ys => rw [List.getLast?_cons_cons]
    · simp [hx]

theorem pyStrip_head?_not (l : List Char) (c : Char)
    (h : (pyStrip l).head? = some c) : isPySpace c = false := by
  unfold pyStrip at h
  rw [List.head?_reverse] at h
  have hne : (l.dropWhile isPySpace).reverse.dropWhile isPySpace ≠ [] := by
    intro hnil
    rw [hnil] at h
    simp at h
  rw [getLast?_dropWhile _ _ hne, List.getLast?_reverse] at h
  exact head?_dropWhile_not isPySpace l c h

theorem pyStrip_idem (l : List Char) : pyStrip (pyStrip l) = pyStrip l := by
  have h1 : (pyStrip l).dropWhile isPySpace = pyStrip l :=
    dropWhile_eq_self_of _ _ (fun c hc => pyStrip_head?_not l c hc)
  show (((pyStrip l).dropWhile isPySpace).reverse.dropWhile isPySpace).reverse = pyStrip l
  rw [h1]
  show (((((l.dropWhile isPySpace).reverse.dropWhile isPySpace)).reverse).reverse.dropWhile
      isPySpace).reverse = pyStrip l
  rw [List.reverse_reverse, dropWhile_idem]
  rfl

theorem numeric_strip_props (t : List Char) (h : is_numeric_text (pyStrip t) = true) :
    pyStrip t ≠ [] ∧ (pyStrip t).all isNumChar = true := by
  unfold is_numeric_text at h
  rw [pyStrip_idem] at h
  simp only [Bool.and_eq_true, Bool.not_eq_true'] at h
  exact ⟨by simpa using h.1, h.2⟩

/-! ## Helper lemmas: splitting -/

theorem splitOnCharAux_fst (c : Char) (l : List Char) :
    (splitOnCharAux c l).1 = l.takeWhile (fun x => !(x == c)) := by
  induction l with
  | nil => rfl
  | cons x xs ih =>
    cases hx : x == c with
    | true => simp [splitOnCharAux, hx, List.takeWhile_cons]
    | false => simp [splitOnCharAux, hx, List.takeWhile_cons, ih]

theorem splitOnCharAux_snd_nil (c : Char) (l : List Char) :
    (splitOnCharAux c l).2 = [] ↔ c ∉ l := by
  induction l with
  | nil => simp [splitOnCharAux]
  | cons x xs ih =>
    cases hx : x == c with
    | true =>
      have : x = c := by simpa using hx
      simp [splitOnCharAux, hx, this]
    | false =>
      have hxc : ¬ x = c := by simpa using hx
      have hne : ¬ c = x := fun hcx => hxc hcx.symm
      simp [splitOnCharAux, hx, ih, hne]

theorem splitOnCharAux_reconstruct (c : Char) (l : List Char) :
    intercalateChar c ((splitOnCharAux c l).1 :: (splitOnCharAux c l).2) = l := by
  induction l with
  | nil => rfl
  | cons x xs ih =>
    rcases hr : splitOnCharAux c xs with ⟨p, ps⟩
    rw [hr] at ih
    cases hx : x == c with
    | true =>
      have hxc : x = c := by simpa using hx
      simp only [splitOnCharAux, hx, if_true, hr]
      show intercalateChar c ([] :: p :: ps) = x :: xs
      cases ps with
      | nil =>
        show [] ++ c :: intercalateChar c [p] = x :: xs
        simpa [intercalateChar, hxc] using ih
      | cons q qs =>
        show [] ++ c :: intercalateChar c (p :: q :: qs) = x :: xs
        simpa [hxc] using ih
    | false =>
      simp only [splitOnCharAux, hx, Bool.false_eq_true, if_false, hr]
      show intercalateChar c ((x :: p) :: ps) = x :: xs
      cases ps with
      | nil => simpa [intercalateChar] using congrArg (x :: ·) ih
      | cons q qs =>
        show (x :: p) ++ c :: intercalateChar c (q :: qs) = x :: xs
        have : p ++ c :: intercalateChar c (q :: qs) = xs := ih
        simpa using congrArg (x :: ·) this

theorem splitOnCharAux_dropWhile (c : Char) (l : List Char)
    (h : (splitOnCharAux c l).2 ≠ []) :
    c :: intercalateChar c (splitOnCharAux c l).2 = l.dropWhile (fun x => !(x == c)) := by
  have recon := splitOnCharAux_reconstruct c l
  have hsplit := List.takeWhile_append_dropWhile (p := fun x => !(x == c)) (l := l)
  rcases hs : (splitOnCharAux c l).2 with _ | ⟨q, qs⟩
  · exact absurd hs h
  · rw [hs] at recon
    have recon2 : (splitOnCharAux c l).1 ++ c :: intercalateChar c (q :: qs) = l := recon
    rw [splitOnCharAux_fst] at recon2
    exact List.append_cancel_left (recon2.trans hsplit.symm)

theorem splitTol_concat (t : List Char) : (splitTol t).1 ++ (splitTol t).2 = t := by
  unfold splitTol
  by_cases hp : (splitOnCharAux '+' t).2 = []
  · by_cases hm : (splitOnCharAux '-' t).2 = []
    · simp [hp, hm]
    · simp only [hp, hm, ne_eq, not_true_eq_false, if_false, not_false_eq_true, if_true]
      have recon := splitOnCharAux_reconstruct '-' t
      rcases hs : (splitOnCharAux '-' t).2 with _ | ⟨q, qs⟩
      · exact absurd hs hm
      · rw [hs] at recon
        exact recon
  · simp only [hp, ne_eq, not_false_eq_true, if_true]
    have recon := splitOnCharAux_reconstruct '+' t
    rcases hs : (splitOnCharAux '+' t).2 with _ | ⟨q, qs⟩
    · exact absurd hs hp
    · rw [hs] at recon
      exact recon

/-! ## Helper lemmas: `replacement_function` -/

theorem replacement_function_eligible (t : List Char) (h1 : '°' ∉ t)
    (h2 : gdtSearch t = false) :
    replacement_function t =
      convert_value (splitTol t).1 ("mm".data) (codePrec (splitTol t).1) ++ (splitTol t).2 := by
  simp [replacement_function, h1, h2]

theorem replacement_function_parse_fail (t : List Char)
    (h : pyFloatParse (splitTol t).1 = none) : replacement_function t = t := by
  by_cases h1 : '°' ∈ t
  · simp [replacement_function, h1]
  · cases h2 : gdtSearch t with
    | true => simp [replacement_function, h1, h2]
    | false =>
      rw [replacement_function_eligible t h1 h2]
      simp [convert_value, h, splitTol_concat]

/-! ## Helper lemmas: grouping steps -/

theorem groupGo_cons_skip (θ : Q) (s : Span) (rest : List Span) (cur : Option SpanGroup)
    (h : pyStrip s.text = []) : groupGo θ (s :: rest) cur = groupGo θ rest cur := by
  simp [groupGo, h]

theorem groupGo_cons_merge (θ : Q) (s : Span) (rest : List Span) (g : SpanGroup)
    (hn : is_numeric_text (pyStrip s.text) = true) (hg : s.x0 - g.x1 < θ) :
    groupGo θ (s :: rest) (some g) =
      groupGo θ rest (some (mergeGroup g s (pyStrip s.text))) := by
  have hne := (numeric_strip_props s.text hn).1
  have he : (pyStrip s.text).isEmpty = false := by simpa using hne
  simp [groupGo, he, hn, hg]

theorem groupGo_cons_new (θ : Q) (s : Span) (rest : List Span) (g : SpanGroup)
    (hn : is_numeric_text (pyStrip s.text) = true) (hg : ¬ s.x0 - g.x1 < θ) :
    groupGo θ (s :: rest) (some g) =
      g :: groupGo θ rest (some (mkGroup s (pyStrip s.text))) := by
  have hne := (numeric_strip_props s.text hn).1
  have he : (pyStrip s.text).isEmpty = false := by simpa using hne
  simp [groupGo, he, hn, hg]

theorem groupGo_cons_fresh (θ : Q) (s : Span) (rest : List Span)
    (hn : is_numeric_text (pyStrip s.text) = true) :
    groupGo θ (s :: rest) none = groupGo θ rest (some (mkGroup s (pyStrip s.text))) := by
  have hne := (numeric_strip_props s.text hn).1
  have he : (pyStrip s.text).isEmpty = false := by simpa using hne
  simp [groupGo, he, hn]

theorem groupGo_cons_close (θ : Q) (s : Span) (rest : List Span) (cur : Option SpanGroup)
    (hne : pyStrip s.text ≠ []) (hn : is_numeric_text (pyStrip s.text) = false) :
    groupGo θ (s :: rest) cur = cur.toList ++ groupGo θ rest none := by
  have he : (pyStrip s.text).isEmpty = false := by simpa using hne
  cases cur with
  | none => simp [groupGo, he, hn]
  | some g => simp [groupGo, he, hn]

theorem groupGo_split (θ : Q) (a : Span) (ha1 : pyStrip a.text ≠ [])
    (ha2 : is_numeric_text (pyStrip a.text) = false) :
    ∀ (pre post : List Span) (cur : Option SpanGroup),
      groupGo θ (pre ++ a :: post) cur = groupGo θ pre cur ++ groupGo θ post none := by
  intro pre
  induction pre with
  | nil =>
    intro post cur
    rw [List.nil_append, groupGo_cons_close θ a post cur ha1 ha2]
    cases cur <;> simp [groupGo]
  | cons s pre ih =>
    intro post cur
    rw [List.cons_append]
    by_cases he : pyStrip s.text = []
    · rw [groupGo_cons_skip θ s _ cur he, groupGo_cons_skip θ s pre cur he, ih]
    · cases hn : is_numeric_text (pyStrip s.text) with
      | false =>
        rw [groupGo_cons_close θ s _ cur he hn, groupGo_cons_close θ s pre cur he hn, ih,
          List.append_assoc]
      | true =>
        cases cur with
        | none => rw [groupGo_cons_fresh θ s _ hn, groupGo_cons_fresh θ s pre hn, ih]
        | some g =>
          by_cases hg : s.x0 - g.x1 < θ
          · rw [groupGo_cons_merge θ s _ g hn hg, groupGo_cons_merge θ s pre g hn hg, ih]
          · rw [groupGo_cons_new θ s _ g hn hg, groupGo_cons_new θ s pre g hn hg, ih,
              List.cons_append]

theorem groupGo_run (θ : Q) :
    ∀ (spans : List Span) (g : SpanGroup),
      allNumericB spans = true → chainGapsB θ g.x1 spans = true →
      groupGo θ spans (some g) =
        [{ g with
            text := g.text ++ joinTrims spans
            x1 := runLastX1 g.x1 spans
            y1 := runMaxY1 g.y1 spans }] := by
  intro spans
  induction spans with
  | nil =>
    intro g _ _
    simp [groupGo, joinTrims, runLastX1, runMaxY1]
  | cons s rest ih =>
    intro g hall hchain
    have hn : is_numeric_text (pyStrip s.text) = true := by
      have := (List.all_eq_true.mp hall) s (by simp)
      simpa using this
    have hrest : allNumericB rest = true := by
      apply List.all_eq_true.mpr
      intro x hx
      exact (List.all_eq_true.mp hall) x (by simp [hx])
    have hchain' : (decide (s.x0 - g.x1 < θ) && chainGapsB θ s.x1 rest) = true := hchain
    have hsplit2 : s.x0 - g.x1 < θ ∧ chainGapsB θ s.x1 rest = true := by simpa using hchain'
    obtain ⟨hg, hchain2⟩ := hsplit2
    have hmx : (mergeGroup g s (pyStrip s.text)).x1 = s.x1 := rfl
    rw [groupGo_cons_merge θ s rest g hn hg,
      ih (mergeGroup g s (pyStrip s.text)) hrest (by rw [hmx]; exact hchain2)]
    simp [mergeGroup, joinTrims, runLastX1, runMaxY1, List.append_assoc]

theorem groupGo_mem (θ : Q) :
    ∀ (spans : List Span) (cur : Option SpanGroup) (g : SpanGroup),
      (∀ g0, cur = some g0 → g0.text ≠ [] ∧ g0.text.all isNumChar = true) →
      g ∈ groupGo θ spans cur → g.text ≠ [] ∧ g.text.all isNumChar = true := by
  intro spans
  induction spans with
  | nil =>
    intro cur g hcur hmem
    cases cur with
    | none => simp [groupGo] at hmem
    | some g0 =>
      have : g = g0 := by simpa [groupGo] using hmem
      exact this ▸ hcur g0 rfl
  | cons s rest ih =>
    intro cur g hcur hmem
    by_cases he : pyStrip s.text = []
    · rw [groupGo_cons_skip θ s rest cur he] at hmem
      exact ih cur g hcur hmem
    · cases hn : is_numeric_text (pyStrip s.text) with
      | false =>
        rw [groupGo_cons_close θ s rest cur he hn] at hmem
        rcases List.mem_append.mp hmem with hmem1 | hmem2
        · cases cur with
          | none => simp at hmem1
          | some g0 =>
            have : g = g0 := by simpa using hmem1
            exact this ▸ hcur g0 rfl
        · exact ih none g (by simp) hmem2
      | true =>
        have props := numeric_strip_props s.text hn
        have hmk : (mkGroup s (pyStrip s.text)).text ≠ [] ∧
            (mkGroup s (pyStrip s.text)).text.all isNumChar = true := by
          simpa [mkGroup] using props
        cases cur with
        | none =>
          rw [groupGo_cons_fresh θ s rest hn] at hmem
          refine ih _ g (fun g0 h0 => ?_) hmem
          exact (Option.some.inj h0) ▸ hmk
        | some g0 =>
          by_cases hg : s.x0 - g0.x1 < θ
          · rw [groupGo_cons_merge θ s rest g0 hn hg] at hmem
            refine ih _ g (fun g1 h1 => ?_) hmem
            have hbase := hcur g0 rfl
            have hg1 : mergeGroup g0 s (pyStrip s.text) = g1 := Option.some.inj h1
            refine hg1 ▸ ⟨?_, ?_⟩
            · intro hcontra
              have : g0.text ++ pyStrip s.text = [] := by simpa [mergeGroup] using hcontra
              rw [List.append_eq_nil] at this
              exact hbase.1 this.1
            · simp only [mergeGroup, List.all_append, Bool.and_eq_true]
              exact ⟨hbase.2, props.2⟩
          · rw [groupGo_cons_new θ s rest g0 hn hg] at hmem
            rcases List.mem_cons.mp hmem with h1 | h2
            · exact h1 ▸ hcur g0 rfl
            · refine ih _ g (fun g1 hh => ?_) h2
              exact (Option.some.inj hh) ▸ hmk

/-! ## Helper lemmas: page records and substitution trace -/

theorem mem_lineReplacements (groups : List SpanGroup) (r : RepRecord) :
    r ∈ lineReplacements groups ↔
      ∃ g ∈ groups, number_pattern g.text = true ∧
        replacement_function g.text ≠ g.text ∧ r = recordOf g := by
  unfold lineReplacements
  rw [List.mem_filterMap]
  constructor
  · rintro ⟨g, hg, hf⟩
    by_cases hp : number_pattern g.text = true
    · by_cases hc : replacement_function g.text = g.text
      · simp [hp, hc] at hf
      · refine ⟨g, hg, hp, hc, ?_⟩
        simp only [hp, if_true, hc, if_false] at hf
        exact (Option.some.inj hf).symm
    · simp [hp] at hf
  · rintro ⟨g, hg, hp, hc, hr⟩
    exact ⟨g, hg, by simp [hp, hc, hr]⟩

theorem insertRecordOps_insert (fontOk : List Char → Bool) (r : RepRecord) :
    ∀ op ∈ (insertRecordOps fontOk r).1, op.isInsert = true := by
  intro op h
  unfold insertRecordOps at h
  by_cases hf : fontOk r.font = true
  · rw [if_pos hf] at h
    rw [List.mem_singleton] at h
    subst h
    rfl
  · rw [if_neg hf] at h
    rcases List.mem_cons.mp h with h1 | h2
    · subst h1
      rfl
    · rw [List.mem_singleton] at h2
      subst h2
      rfl

theorem reinsertOps_insert (fontOk : List Char → Bool) :
    ∀ (reps : List RepRecord) (op : PageOp),
      op ∈ (reinsertOps fontOk reps).1 → op.isInsert = true := by
  intro reps
  induction reps with
  | nil =>
    intro op h
    simp [reinsertOps] at h
  | cons r rest ih =>
    intro op h
    unfold reinsertOps at h
    by_cases hio : (insertRecordOps fontOk r).2 = true
    · simp only [hio, if_true] at h
      rcases List.mem_append.mp h with h1 | h2
      · exact insertRecordOps_insert fontOk r op h1
      · exact ih op h2
    · simp only [hio, Bool.false_eq_true, if_false] at h
      exact insertRecordOps_insert fontOk r op h

/-! ## Claims -/

/-- C9: the tolerance split is lossless: the base and tolerance parts always
concatenate back to the original token; consequently whenever the base fails
to parse as a float, the rebuilt result (unconverted base plus tolerance)
is the original token character for character. -/
theorem claim_C9_split_concat (text : List Char) :
    (splitTol text).1 ++ (splitTol text).2 = text ∧
      (pyFloatParse (splitTol text).1 = none → replacement_function text = text) :=
  ⟨splitTol_concat text, fun h => replacement_function_parse_fail text h⟩

/-- Witness for C9 at the token `"1..2"`, whose base fails to parse. -/
theorem claim_C9_witness :
    pyFloatParse (splitTol "1..2".data).1 = none ∧
      replacement_function "1..2".data = "1..2".data :=
  ⟨by decide, (claim_C9_split_concat ("1..2".data)).2 (by decide)⟩

/-- C6: `replacement_function` returns the token unchanged whenever the token
contains a degree symbol, or matches digit-x-digit anywhere, or its base
number fails to parse as a float. -/
theorem claim_C6_unchanged_when_ineligible (text : List Char)
    (h : '°' ∈ text ∨ gdtSearch text = true ∨ pyFloatParse (splitTol text).1 = none) :
    replacement_function text = text := by
  rcases h with h | h | h
  · simp [replacement_function, h]
  · by_cases h1 : '°' ∈ text
    · simp [replacement_function, h1]
    · simp [replacement_function, h1, h]
  · exact replacement_function_parse_fail text h

/-- Witness for C6 at the claim's example `"12.5.6"`, which fails float
parsing and is returned unchanged. -/
theorem claim_C6_witness :
    ('°' ∈ "12.5.6".data ∨ gdtSearch ("12.5.6".data) = true ∨
        pyFloatParse (splitTol ("12.5.6".data)).1 = none) ∧
      replacement_function ("12.5.6".data) = "12.5.6".data :=
  ⟨by decide, claim_C6_unchanged_when_ineligible ("12.5.6".data) (by decide)⟩

/-- C4: for an eligible token the split takes everything before the first `+`
as the base and the rest (starting at that `+`) as the tolerance; with no `+`,
the first `-` plays that role; with neither, the whole token is the base with
empty tolerance.  The tolerance is appended verbatim to the converted base,
and `"10+0.5"` yields exactly `"0.3937+0.5"`. -/
theorem claim_C4_split_and_tolerance (text : List Char)
    (h1 : '°' ∉ text) (h2 : gdtSearch text = false) :
    ('+' ∈ text →
        splitTol text =
          (text.takeWhile fun c => !(c == '+'), text.dropWhile fun c => !(c == '+'))) ∧
      ('+' ∉ text → '-' ∈ text →
        splitTol text =
          (text.takeWhile fun c => !(c == '-'), text.dropWhile fun c => !(c == '-'))) ∧
      ('+' ∉ text → '-' ∉ text → splitTol text = (text, [])) ∧
      replacement_function text =
        convert_value (splitTol text).1 ("mm".data) (codePrec (splitTol text).1) ++
          (splitTol text).2 ∧
      replacement_function ("10+0.5".data) = "0.3937+0.5".data := by
  refine ⟨?_, ?_, ?_, replacement_function_eligible text h1 h2, by decide⟩
  · intro hp
    have hsnd : (splitOnCharAux '+' text).2 ≠ [] := by
      rw [ne_eq, splitOnCharAux_snd_nil]
      simpa using hp
    unfold splitTol
    rw [if_pos hsnd, splitOnCharAux_fst, splitOnCharAux_dropWhile '+' text hsnd]
  · intro hp hm
    have hpnil : (splitOnCharAux '+' text).2 = [] := (splitOnCharAux_snd_nil '+' text).mpr hp
    have hsnd : (splitOnCharAux '-' text).2 ≠ [] := by
      rw [ne_eq, splitOnCharAux_snd_nil]
      simpa using hm
    unfold splitTol
    rw [if_neg (by simpa using hpnil), if_pos hsnd, splitOnCharAux_fst,
      splitOnCharAux_dropWhile '-' text hsnd]
  · intro hp hm
    have hpnil : (splitOnCharAux '+' text).2 = [] := (splitOnCharAux_snd_nil '+' text).mpr hp
    have hmnil : (splitOnCharAux '-' text).2 = [] := (splitOnCharAux_snd_nil '-' text).mpr hm
    unfold splitTol
    rw [if_neg (by simpa using hpnil), if_neg (by simpa using hmnil)]

/-- Witness for C4 at `"10+0.5"`. -/
theorem claim_C4_witness :
    '°' ∉ "10+0.5".data ∧ gdtSearch ("10+0.5".data) = false ∧
      replacement_function ("10+0.5".data) = "0.3937+0.5".data :=
  ⟨by decide, by decide,
    (claim_C4_split_and_tolerance ("10+0.5".data) (by decide) (by decide)).2.2.2.2⟩

/-- C5 counterexample: `float()` accepts the base `"1.5 "` (trailing space),
which has one digit after the decimal point, but the code formats at 2
places — the length of `"1.5 ".split('.')[1] = "5 "` — producing `"0.06"`,
not the `"0.1"` the claimed digit-count precision would produce. -/
theorem claim_C5_counterexample :
    pyFloatParse ("1.5 ".data) = some (PyFloat.fin false ⟨15, 10⟩) ∧
      codePrec ("1.5 ".data) = 2 ∧
      specDigitsAfterDecimalPoint ("1.5 ".data) = 1 ∧
      replacement_function ("1.5 ".data) = "0.06".data ∧
      convert_value ("1.5 ".data) ("mm".data) (specDigitsAfterDecimalPoint ("1.5 ".data)) =
        "0.1".data ∧
      ("0.06".data : List Char) ≠ "0.1".data := by decide

/-- C5 (amended): for an eligible token whose base parses, the result is the
base value divided by exactly 25.4 and formatted at a number of decimal
places equal to the CHARACTER count of the base's second `'.'`-chunk
(`len(base.split('.')[1])`), defaulting to 4 when the base has no `'.'`;
the tolerance is appended.  In particular `"25.40"` converts to `"1.00"`. -/
theorem claim_C5_precision_conversion (text : List Char)
    (h1 : '°' ∉ text) (h2 : gdtSearch text = false)
    (v : PyFloat) (hv : pyFloatParse (splitTol text).1 = some v) :
    replacement_function text =
        formatFixed (pyDiv v (254 / 10)) (codePrec (splitTol text).1) ++ (splitTol text).2 ∧
      ((splitOnCharAux '.' (splitTol text).1).2 = [] → codePrec (splitTol text).1 = 4) ∧
      (∀ p1 ps, (splitOnCharAux '.' (splitTol text).1).2 = p1 :: ps →
        codePrec (splitTol text).1 = p1.length) ∧
      replacement_function ("25.40".data) = "1.00".data := by
  refine ⟨?_, ?_, ?_, by decide⟩
  · rw [replacement_function_eligible text h1 h2]
    have hmm : pyLower ("mm".data) = "mm".data := by decide
    simp [convert_value, hv, hmm]
  · intro hnil
    simp [codePrec, hnil]
  · intro p1 ps h
    simp [codePrec, h]

/-- Witness for C5 (amended) at `"25.40"`. -/
theorem claim_C5_witness :
    '°' ∉ "25.40".data ∧ gdtSearch ("25.40".data) = false ∧
      pyFloatParse (splitTol ("25.40".data)).1 = some (PyFloat.fin false ⟨2540, 100⟩) ∧
      replacement_function ("25.40".data) = "1.00".data :=
  ⟨by decide, by decide, by decide,
    (claim_C5_precision_conversion ("25.40".data) (by decide) (by decide)
      (PyFloat.fin false ⟨2540, 100⟩) (by decide)).2.2.2⟩

/-- C1: one traversal step of the grouper behaves exactly as claimed: a
numeric span merges into the open group precisely when the gap from the
group's current right edge is strictly below the threshold; with gap `≥ θ`
or no open group it starts a fresh group; a (non-empty) non-numeric span
closes the open group, and consequently grouping never merges across an
intervening non-numeric span. -/
theorem claim_C1_grouping_merge_policy (θ : Q) :
    (∀ (s : Span) (rest : List Span) (g : SpanGroup),
        is_numeric_text (pyStrip s.text) = true → s.x0 - g.x1 < θ →
        groupGo θ (s :: rest) (some g) =
          groupGo θ rest (some (mergeGroup g s (pyStrip s.text)))) ∧
      (∀ (s : Span) (rest : List Span) (g : SpanGroup),
        is_numeric_text (pyStrip s.text) = true → ¬ s.x0 - g.x1 < θ →
        groupGo θ (s :: rest) (some g) =
          g :: groupGo θ rest (some (mkGroup s (pyStrip s.text)))) ∧
      (∀ (s : Span) (rest : List Span),
        is_numeric_text (pyStrip s.text) = true →
        groupGo θ (s :: rest) none = groupGo θ rest (some (mkGroup s (pyStrip s.text)))) ∧
      (∀ (s : Span) (rest : List Span) (cur : Option SpanGroup),
        pyStrip s.text ≠ [] → is_numeric_text (pyStrip s.text) = false →
        groupGo θ (s :: rest) cur = cur.toList ++ groupGo θ rest none) ∧
      (∀ (a : Span) (pre post : List Span),
        pyStrip a.text ≠ [] → is_numeric_text (pyStrip a.text) = false →
        group_numeric_spans (pre ++ a :: post) θ =
          group_numeric_spans pre θ ++ group_numeric_spans post θ) :=
  ⟨fun s rest g hn hg => groupGo_cons_merge θ s rest g hn hg,
   fun s rest g hn hg => groupGo_cons_new θ s rest g hn hg,
   fun s rest hn => groupGo_cons_fresh θ s rest hn,
   fun s rest cur hne hn => groupGo_cons_close θ s rest cur hne hn,
   fun a pre post ha1 ha2 => groupGo_split θ a ha1 ha2 pre post none⟩

/-- Witness for C1: a concrete merge step at gap `-10 < 3`. -/
theorem claim_C1_witness :
    is_numeric_text (pyStrip spanN2.text) = true ∧
      spanN2.x0 - (mkGroup spanN1 (pyStrip spanN1.text)).x1 < 3 ∧
      groupGo 3 [spanN2] (some (mkGroup spanN1 (pyStrip spanN1.text))) =
        groupGo 3 [] (some (mergeGroup (mkGroup spanN1 (pyStrip spanN1.text)) spanN2
          (pyStrip spanN2.text))) :=
  ⟨by decide, by decide,
    (claim_C1_grouping_merge_policy 3).1 spanN2 [] (mkGroup spanN1 (pyStrip spanN1.text))
      (by decide) (by decide)⟩

/-- C2 counterexample: merging `spanN2` (right edge 5) into the group opened
by `spanN1` (right edge 10) ASSIGNS the right edge instead of taking the
union, so the group's box does not contain its first member's box. -/
theorem claim_C2_counterexample :
    group_numeric_spans [spanN1, spanN2] 3 =
        [⟨"12".data, 0, 0, 5, 10, "f1".data, 2, (0, 0, 0)⟩] ∧
      spanN1.x1 = 10 ∧ ¬ spanN1.x1 ≤ 5 := by decide

/-- C2 (amended): for a run of numeric spans with all gaps under the
threshold, the single resulting group takes left/top and font/size/color
from the first span, its text is the concatenation of the members' stripped
texts, its bottom edge is the maximum of the members' bottom edges, and its
right edge is the LAST member's right edge (assigned at each merge, not the
union of the members' right edges). -/
theorem claim_C2_bbox_run (θ : Q) (s : Span) (rest : List Span)
    (hall : allNumericB (s :: rest) = true)
    (hchain : chainGapsB θ s.x1 rest = true) :
    group_numeric_spans (s :: rest) θ =
      [⟨joinTrims (s :: rest), s.x0, s.y0, runLastX1 s.x1 rest, runMaxY1 s.y1 rest,
        s.font, s.size, s.color.getD (0, 0, 0)⟩] := by
  have hn : is_numeric_text (pyStrip s.text) = true := by
    have := (List.all_eq_true.mp hall) s (by simp)
    simpa using this
  have hrest : allNumericB rest = true := by
    apply List.all_eq_true.mpr
    intro x hx
    exact (List.all_eq_true.mp hall) x (by simp [hx])
  unfold group_numeric_spans
  rw [groupGo_cons_fresh θ s rest hn,
    groupGo_run θ rest (mkGroup s (pyStrip s.text)) hrest (by simpa [mkGroup] using hchain)]
  simp [mkGroup, joinTrims, runLastX1, runMaxY1]

/-- Witness for C2 (amended) on the two-span run `[spanN1, spanN2]`. -/
theorem claim_C2_witness :
    allNumericB [spanN1, spanN2] = true ∧
      chainGapsB 3 spanN1.x1 [spanN2] = true ∧
      group_numeric_spans [spanN1, spanN2] 3 =
        [⟨joinTrims [spanN1, spanN2], spanN1.x0, spanN1.y0,
          runLastX1 spanN1.x1 [spanN2], runMaxY1 spanN1.y1 [spanN2],
          spanN1.font, spanN1.size, spanN1.color.getD (0, 0, 0)⟩] :=
  ⟨by decide, by decide, claim_C2_bbox_run 3 spanN1 [spanN2] (by decide) (by decide)⟩

/-- C3 counterexample: the grouped token `"1+2+3"` fails the page-level
`number_pattern` filter, so page processing produces NO record for it even
though its classification/conversion result (`"0.0394+2+3"`) differs from
the original text — contradicting "a record is produced for every Group
whose result differs". -/
theorem claim_C3_counterexample :
    group_numeric_spans [spanC3] 3 =
        [⟨"1+2+3".data, 0, 0, 10, 10, "f5".data, 2, (0, 0, 0)⟩] ∧
      replacement_function ("1+2+3".data) = "0.0394+2+3".data ∧
      replacement_function ("1+2+3".data) ≠ "1+2+3".data ∧
      number_pattern ("1+2+3".data) = false ∧
      pageReplacements [[[spanC3]]] = [] := by decide

/-- C3 (amended): a replacement record is produced for exactly those groups
that match the page-level complete-number regex AND whose conversion result
differs from the original text; each record carries the group's bounding
box, the converted text, and the group's font, size and color. -/
theorem claim_C3_records_iff (blocks : List (List (List Span))) (r : RepRecord) :
    r ∈ pageReplacements blocks ↔
      ∃ b ∈ blocks, ∃ line ∈ b, ∃ g ∈ group_numeric_spans line 3,
        number_pattern g.text = true ∧ replacement_function g.text ≠ g.text ∧
          r = recordOf g := by
  unfold pageReplacements
  rw [List.mem_flatten]
  constructor
  · rintro ⟨bl, hbl, hr⟩
    rcases List.mem_map.mp hbl with ⟨b, hb, rfl⟩
    rw [List.mem_flatten] at hr
    rcases hr with ⟨ln, hln, hr2⟩
    rcases List.mem_map.mp hln with ⟨line, hline, rfl⟩
    rcases (mem_lineReplacements _ r).mp hr2 with ⟨g, hg, hp, hc, hrr⟩
    exact ⟨b, hb, line, hline, g, hg, hp, hc, hrr⟩
  · rintro ⟨b, hb, line, hline, g, hg, hp, hc, hrr⟩
    refine ⟨(b.map fun l => lineReplacements (group_numeric_spans l 3)).flatten,
      List.mem_map.mpr ⟨b, hb, rfl⟩, ?_⟩
    rw [List.mem_flatten]
    exact ⟨lineReplacements (group_numeric_spans line 3),
      List.mem_map.mpr ⟨line, hline, rfl⟩,
      (mem_lineReplacements _ r).mpr ⟨g, hg, hp, hc, hrr⟩⟩

/-- Witness for C3 (amended): the page `[[[spanC7]]]` produces the record of
its one group, whose text `"10+0.5"` matches the regex and converts. -/
theorem claim_C3_witness :
    recordOf ⟨"10+0.5".data, 0, 0, 10, 10, "helv".data, 2, (0, 0, 0)⟩ ∈
      pageReplacements [[[spanC7]]] :=
  (claim_C3_records_iff [[[spanC7]]] _).mpr
    ⟨[[spanC7]], by decide, [spanC7], by decide,
      ⟨"10+0.5".data, 0, 0, 10, 10, "helv".data, 2, (0, 0, 0)⟩, by decide,
      by decide, by decide, rfl⟩

/-- C7: with at least one record, the page substitution trace is exactly:
one white-fill redaction mark per record (in record order), then a single
commit of all redactions, then only text-insertion attempts; no insertion
precedes the commit, no redaction follows it, and the records themselves
were fully collected by the (pure) scan before the trace is emitted. -/
theorem claim_C7_two_phase (fontOk : List Char → Bool) (reps : List RepRecord)
    (hne : reps ≠ []) :
    applySubstitutions fontOk reps =
        (reps.map fun r => PageOp.redact r.x0 r.y0 r.x1 r.y1 (1, 1, 1)) ++
          PageOp.commitRedactions :: (reinsertOps fontOk reps).1 ∧
      (∀ op ∈ (reinsertOps fontOk reps).1, op.isInsert = true) ∧
      (applySubstitutions fontOk reps).countP (fun op => op.isCommit) = 1 := by
  have hne2 : ¬ reps.isEmpty = true := by simpa [List.isEmpty_iff] using hne
  have htrace : applySubstitutions fontOk reps =
      (reps.map fun r => PageOp.redact r.x0 r.y0 r.x1 r.y1 (1, 1, 1)) ++
        PageOp.commitRedactions :: (reinsertOps fontOk reps).1 := by
    unfold applySubstitutions
    rw [if_neg hne2]
  refine ⟨htrace, reinsertOps_insert fontOk reps, ?_⟩
  rw [htrace, List.countP_append, List.countP_cons]
  have h1 : (reps.map fun r => PageOp.redact r.x0 r.y0 r.x1 r.y1 (1, 1, 1)).countP
      (fun op => op.isCommit) = 0 := by
    rw [List.countP_eq_zero]
    intro op hop
    rcases List.mem_map.mp hop with ⟨rr, _, rfl⟩
    simp [PageOp.isCommit]
  have h2 : (reinsertOps fontOk reps).1.countP (fun op => op.isCommit) = 0 := by
    rw [List.countP_eq_zero]
    intro op hop
    have hins := reinsertOps_insert fontOk reps op hop
    cases op <;> simp_all [PageOp.isInsert, PageOp.isCommit]
  rw [h1, h2]
  simp [PageOp.isCommit]

/-- Witness for C7 on a one-record page with every font available. -/
theorem claim_C7_witness :
    ([recHelv] : List RepRecord) ≠ [] ∧
      applySubstitutions fontOkAll [recHelv] =
        ([recHelv].map fun r => PageOp.redact r.x0 r.y0 r.x1 r.y1 (1, 1, 1)) ++
          PageOp.commitRedactions :: (reinsertOps fontOkAll [recHelv]).1 :=
  ⟨by decide, (claim_C7_two_phase fontOkAll [recHelv] (by decide)).1⟩

/-- C8: when inserting a record's text with its original font fails, exactly
one retry is made, with the `"helv"` fallback font at the same rectangle,
size and color (and same text); if the fallback also fails the exception is
not caught again — the record's insertion aborts the remaining records —
and if the fallback succeeds processing continues normally. -/
theorem claim_C8_font_fallback (fontOk : List Char → Bool) (r : RepRecord)
    (post : List RepRecord) (hfail : fontOk r.font = false) :
    insertRecordOps fontOk r =
        ([PageOp.insertAttempt r.x0 r.y0 r.x1 r.y1 r.text r.font r.size r.color false,
          PageOp.insertAttempt r.x0 r.y0 r.x1 r.y1 r.text ("helv".data) r.size r.color
            (fontOk ("helv".data))],
         fontOk ("helv".data)) ∧
      (fontOk ("helv".data) = false →
        reinsertOps fontOk (r :: post) = ((insertRecordOps fontOk r).1, false)) ∧
      (fontOk ("helv".data) = true →
        reinsertOps fontOk (r :: post) =
          ((insertRecordOps fontOk r).1 ++ (reinsertOps fontOk post).1,
            (reinsertOps fontOk post).2)) := by
  have h1 : insertRecordOps fontOk r =
      ([PageOp.insertAttempt r.x0 r.y0 r.x1 r.y1 r.text r.font r.size r.color false,
        PageOp.insertAttempt r.x0 r.y0 r.x1 r.y1 r.text ("helv".data) r.size r.color
          (fontOk ("helv".data))],
       fontOk ("helv".data)) := by
    unfold insertRecordOps
    rw [if_neg (by simp [hfail])]
  have step : reinsertOps fontOk (r :: post) =
      (if (insertRecordOps fontOk r).2 then
        ((insertRecordOps fontOk r).1 ++ (reinsertOps fontOk post).1,
          (reinsertOps fontOk post).2)
      else ((insertRecordOps fontOk r).1, false)) := rfl
  refine ⟨h1, ?_, ?_⟩
  · intro h2
    rw [step, h1]
    simp [h2]
  · intro h2
    rw [step, h1]
    simp [h2]

/-- Witness for C8: with only `"helv"` available, inserting `recArial` fails
once with `"arial"` and succeeds on the single `"helv"` retry. -/
theorem claim_C8_witness :
    fontOkHelvOnly recArial.font = false ∧
      insertRecordOps fontOkHelvOnly recArial =
        ([PageOp.insertAttempt recArial.x0 recArial.y0 recArial.x1 recArial.y1
            recArial.text recArial.font recArial.size recArial.color false,
          PageOp.insertAttempt recArial.x0 recArial.y0 recArial.x1 recArial.y1
            recArial.text ("helv".data) recArial.size recArial.color
            (fontOkHelvOnly ("helv".data))],
         fontOkHelvOnly ("helv".data)) :=
  ⟨by decide, (claim_C8_font_fallback fontOkHelvOnly recArial [] (by decide)).1⟩

/-- C10: every group produced by the grouper has non-empty text drawn
entirely from the character class `[0-9.+-]`; in particular a grouped token
can never contain a degree symbol, so the degree-symbol skip branch of the
classifier is unreachable from the page-processing path. -/
theorem claim_C10_group_text_charset (spans : List Span) (θ : Q) (g : SpanGroup)
    (hg : g ∈ group_numeric_spans spans θ) :
    g.text ≠ [] ∧ g.text.all isNumChar = true ∧ '°' ∉ g.text := by
  have h := groupGo_mem θ spans none g (by simp) hg
  refine ⟨h.1, h.2, ?_⟩
  intro hdeg
  have h1 := (List.all_eq_true.mp h.2) '°' hdeg
  have h2 : isNumChar '°' = false := by decide
  rw [h2] at h1
  exact Bool.false_ne_true h1

/-- Witness for C10 on the group produced from `[spanN1, spanN2]`. -/
theorem claim_C10_witness :
    (⟨"12".data, 0, 0, 5, 10, "f1".data, 2, (0, 0, 0)⟩ : SpanGroup) ∈
        group_numeric_spans [spanN1, spanN2] 3 ∧
      ("12".data : List Char) ≠ [] ∧ ("12".data).all isNumChar = true ∧
      '°' ∉ "12".data :=
  ⟨by decide,
    claim_C10_group_text_charset [spanN1, spanN2] 3
      ⟨"12".data, 0, 0, 5, 10, "f1".data, 2, (0, 0, 0)⟩ (by decide)⟩

end PdfConverter
